import Mathlib

/-!
Verification development for the Lutra CSS-variable VS Code extension
(src/src/extension.ts). The extension scans CSS and Svelte files with a
fixed set of JavaScript regular expressions, builds a name-keyed table of
CSS custom properties, and serves filtered completion items.

The embedding below models, faithfully to the source:
  - the four extraction regexes and the three metadata sub-regexes, as
    regex ASTs run by a small JavaScript-style backtracking matcher
    (every quantifier in the source patterns ranges over a single
    character class, which the AST reflects);
  - the JS Map used as the symbol table (insertion order, in-place
    update on existing keys);
  - updateVariables (the rebuild), with file reads modelled as
    path/content pairs where content is either text or a read error;
  - provideCompletionItems (trigger detection, eligibility filter,
    item formatting), with the line prefix and the imported-component
    set as inputs, since both are handed over by the editor host.
-/

namespace LutraCss

/-- Character predicate for the JavaScript regex class backslash-w,
that is ASCII letters, digits and underscore. -/
def isWordJS (c : Char) : Bool :=
  ('a' ≤ c && c ≤ 'z') || ('A' ≤ c && c ≤ 'Z') || ('0' ≤ c && c ≤ '9') || c == '_'

/-- Character predicate for the JavaScript regex class backslash-s and for
the whitespace set used by String.prototype.trim: tab, line feed, vertical
tab, form feed, carriage return, space, no-break space, ogham space mark,
the U+2000 to U+200A spaces, line and paragraph separators, narrow
no-break space, medium mathematical space, ideographic space and the
byte-order mark. -/
def isSpaceJS (c : Char) : Bool :=
  c == '\t' || c == '\n' || c == '\x0b' || c == '\x0c' || c == '\r' || c == ' ' ||
  c == Char.ofNat 160 || c == Char.ofNat 5760 ||
  (Char.ofNat 8192 ≤ c && c ≤ Char.ofNat 8202) ||
  c == Char.ofNat 8232 || c == Char.ofNat 8233 || c == Char.ofNat 8239 ||
  c == Char.ofNat 8287 || c == Char.ofNat 12288 || c == Char.ofNat 65279

/-- Character classes appearing in the source regexes. -/
inductive CClass where
  | word
  | wordDash
  | space
  | quote
  | notStar
  | notSemi
  | notBrace
  | notNl
  | notQuote
deriving DecidableEq, Repr

/-- Membership test of a character in a class. -/
def CClass.test : CClass → Char → Bool
  | .word, c => isWordJS c
  | .wordDash, c => isWordJS c || c == '-'
  | .space, c => isSpaceJS c
  | .quote, c => c == '\'' || c == '"'
  | .notStar, c => !(c == '*')
  | .notSemi, c => !(c == ';')
  | .notBrace, c => !(c == '\x7d')
  | .notNl, c => !(c == '\n')
  | .notQuote, c => !(c == '\'' || c == '"')

/-- Regex abstract syntax. Quantifiers in the source patterns only ever
apply to a single character class, so the AST bakes that in: starG and
plusG are greedy, starL is lazy, optG is a greedy optional group. -/
inductive RE where
  | strLit (cs : List Char)
  | cls (c : CClass)
  | starG (c : CClass)
  | starL (c : CClass)
  | plusG (c : CClass)
  | cat (a b : RE)
  | alt (a b : RE)
  | optG (r : RE)
  | group (i : Nat) (r : RE)
deriving DecidableEq, Repr

/-- Length of the maximal run of characters of class c at the head of s. -/
def clsRun (c : CClass) : List Char → Nat
  | [] => 0
  | ch :: rest => if c.test ch then clsRun c rest + 1 else 0

/-- Strip a literal character sequence off the head of s, if present. -/
def dropLit : List Char → List Char → Option (List Char)
  | [], s => some s
  | _ :: _, [] => none
  | p :: ps, ch :: rest => if p == ch then dropLit ps rest else none

/-- Run a regex at the head of the input. Returns the alternatives in
backtracking priority order, each as the remaining input paired with the
captures (group index, captured text) produced along that alternative. -/
def runRE : RE → List Char → List (List Char × List (Nat × String))
  | .strLit cs, s =>
    match dropLit cs s with
    | some rest => [(rest, [])]
    | none => []
  | .cls c, s =>
    match s with
    | [] => []
    | ch :: rest => if c.test ch then [(rest, [])] else []
  | .starG c, s =>
    let n := clsRun c s
    (List.range (n + 1)).map (fun k => (s.drop (n - k), ([] : List (Nat × String))))
  | .starL c, s =>
    let n := clsRun c s
    (List.range (n + 1)).map (fun k => (s.drop k, ([] : List (Nat × String))))
  | .plusG c, s =>
    let n := clsRun c s
    (List.range n).map (fun k => (s.drop (n - k), ([] : List (Nat × String))))
  | .cat a b, s =>
    (runRE a s).flatMap (fun p => (runRE b p.1).map (fun q => (q.1, p.2 ++ q.2)))
  | .alt a b, s => runRE a s ++ runRE b s
  | .optG r, s => runRE r s ++ [(s, [])]
  | .group i r, s =>
    (runRE r s).map (fun p => (p.1, (i, String.mk (s.take (s.length - p.1.length))) :: p.2))

/-- First (highest-priority) match of r anchored at the head of s, as
consumed length plus captures. -/
def findAt (r : RE) (s : List Char) : Option (Nat × List (Nat × String)) :=
  match runRE r s with
  | [] => none
  | p :: _ => some (s.length - p.1.length, p.2)

/-- Leftmost match of r in s, scanning forward from the head; returns
(start position, length, captures). -/
def searchIn (r : RE) : List Char → Nat → Option (Nat × Nat × List (Nat × String))
  | [], pos =>
    match findAt r [] with
    | some lc => some (pos, lc.1, lc.2)
    | none => none
  | s@(_ :: rest), pos =>
    match findAt r s with
    | some lc => some (pos, lc.1, lc.2)
    | none => searchIn r rest (pos + 1)

/-- One regex match: the matched text (match[0]) and the captures. -/
structure RMatch where
  matched : String
  caps : List (Nat × String)
deriving DecidableEq, Repr

/-- Capture group access, match[i]; none models a JS undefined group. -/
def RMatch.get (m : RMatch) (i : Nat) : Option String :=
  ((m.caps).find? (fun p => p.1 == i)).map (fun p => p.2)

/-- Repeated matching as in String.prototype.matchAll: find the leftmost
match, emit it, resume after it (advancing one position past an empty
match, as the JS iterator does). Fuel bounds the number of matches. -/
def matchAllAux (r : RE) : Nat → List Char → List RMatch
  | 0, _ => []
  | fuel + 1, s =>
    match searchIn r s 0 with
    | none => []
    | some plc =>
      ⟨String.mk ((s.drop plc.1).take plc.2.1), plc.2.2⟩ ::
        matchAllAux r fuel (s.drop (plc.1 + max plc.2.1 1))

/-- All matches of r in s, in order, content.matchAll(r). -/
def matchAllR (r : RE) (s : String) : List RMatch :=
  matchAllAux r (s.toList.length + 1) s.toList

/-- First match of r in s, content.match(r) for a non-global regex. -/
def firstMatch (r : RE) (s : String) : Option RMatch :=
  match searchIn r s.toList 0 with
  | none => none
  | some plc => some ⟨String.mk ((s.toList.drop plc.1).take plc.2.1), plc.2.2⟩

/-- String.prototype.trim, removing JS whitespace from both ends. -/
def jsTrim (s : String) : String :=
  String.mk ((((s.toList.dropWhile isSpaceJS).reverse).dropWhile isSpaceJS).reverse)

/-- Array.prototype.join with separator a newline. -/
def joinLines : List String → String
  | [] => ""
  | [a] => a
  | a :: rest => a ++ "\n" ++ joinLines rest

/-- Test whether the character list pre is an initial segment of s. -/
def startsWithCh : List Char → List Char → Bool
  | _, [] => true
  | [], _ :: _ => false
  | a :: as, b :: bs => a == b && startsWithCh as bs

/-- Test whether needle occurs as a contiguous substring of s,
String.prototype.includes. -/
def hasSubstrCh : List Char → List Char → Bool
  | [], needle => startsWithCh [] needle
  | s@(_ :: rest), needle => startsWithCh s needle || hasSubstrCh rest needle

/-- String.prototype.includes on strings. -/
def hasSubstr (s sub : String) : Bool := hasSubstrCh s.toList sub.toList

/-- String.prototype.endsWith on strings. -/
def jsEndsWith (s suf : String) : Bool :=
  startsWithCh s.toList.reverse suf.toList.reverse

/-- Node path.basename restricted to forward-slash separators: the part of
the path after the last separator (paths with trailing separators are not
produced by the host file enumeration and are not modelled). -/
def basenameOf (p : String) : String :=
  String.mk ((p.toList.reverse.takeWhile (fun c => !(c == '/'))).reverse)

/-- Node path.basename(p, ext): the base name with the extension stripped
when it is a proper suffix. -/
def basenameNoExt (p ext : String) : String :=
  let b := basenameOf p
  if !(b == ext) && jsEndsWith b ext then
    String.mk (b.toList.take (b.toList.length - ext.toList.length))
  else b

/-- Origin of a variable: the source field of the CSSVariable record,
the string union type of global and component in the source. -/
inductive VarSource where
  | global
  | component
deriving DecidableEq, Repr

/-- The CSSVariable record of the source: name, optional description,
origin, optional owning component and declaring file path. -/
structure CSSVariable where
  name : String
  description : Option String
  source : VarSource
  componentName : Option String
  filePath : String
deriving DecidableEq, Repr

/-- The symbol table: a JS Map from variable name to record, modelled as
an insertion-ordered association list with unique keys. -/
abbrev VarTable := List (String × CSSVariable)

/-- Map.prototype.has. -/
def mapHas : VarTable → String → Bool
  | [], _ => false
  | (k', _) :: rest, k => k' == k || mapHas rest k

/-- Map.prototype.get. -/
def mapGet : VarTable → String → Option CSSVariable
  | [], _ => none
  | (k', v') :: rest, k => if k' == k then some v' else mapGet rest k

/-- Map.prototype.set: replace in place when the key exists, append at the
end otherwise. -/
def mapSet : VarTable → String → CSSVariable → VarTable
  | [], k, v => [(k, v)]
  | (k', v') :: rest, k, v =>
    if k' == k then (k, v) :: rest else (k', v') :: mapSet rest k v

/-- Map.prototype.values, in insertion order. -/
def mapValues (t : VarTable) : List CSSVariable := t.map (fun p => p.2)

/-- A file handed to the rebuild by the host file enumeration: its path
and the outcome of fs.promises.readFile, either the text or a read error. -/
structure FSFile where
  fsPath : String
  content : Except String String
deriving Repr

/-- CSS_VAR_PATTERN of the source, the plain-declaration regex. -/
def CSS_VAR_PATTERN : RE :=
  .cat
    (.optG (.cat (.strLit ['/', '*'])
           (.cat (.group 1 (.starG .notStar))
           (.cat (.strLit ['*', '/']) (.starG .space)))))
    (.group 2 (.cat (.starL .notBrace)
              (.cat (.strLit ['-', '-'])
              (.cat (.plusG .wordDash)
              (.cat (.strLit [':'])
              (.cat (.starG .space)
              (.cat (.plusG .notSemi) (.strLit [';']))))))))

/-- CSSPROP_DOC_PATTERN of the source, the documentation-tag regex. -/
def CSSPROP_DOC_PATTERN : RE :=
  .cat (.strLit ['@', 'c', 's', 's', 'p', 'r', 'o', 'p'])
  (.cat (.plusG .space)
  (.cat (.group 1 (.cat (.strLit ['-', '-']) (.plusG .wordDash)))
  (.cat (.starG .space)
  (.cat (.strLit ['-'])
  (.cat (.starG .space) (.group 2 (.plusG .notNl)))))))

/-- PROPERTY_RULE_PATTERN of the source, the formal at-property regex. -/
def PROPERTY_RULE_PATTERN : RE :=
  .cat (.strLit ['/', '*', '*'])
  (.cat (.group 1 (.starL .notStar))
  (.cat (.strLit ['*', '/'])
  (.cat (.starG .space)
  (.cat (.strLit ['@', 'p', 'r', 'o', 'p', 'e', 'r', 't', 'y'])
  (.cat (.plusG .space)
  (.cat (.group 2 (.cat (.strLit ['-', '-']) (.plusG .wordDash)))
  (.cat (.starG .space)
  (.cat (.strLit ['\x7b'])
  (.cat (.group 3 (.plusG .notBrace)) (.strLit ['\x7d']))))))))))

/-- The regex used to pull the variable name out of a plain declaration. -/
def VAR_NAME_PATTERN : RE :=
  .cat (.strLit ['-', '-']) (.plusG .wordDash)

/-- The syntax metadata sub-regex applied to an at-property body. -/
def SYNTAX_PATTERN : RE :=
  .cat (.strLit ['s', 'y', 'n', 't', 'a', 'x', ':'])
  (.cat (.starG .space)
  (.cat (.cls .quote)
  (.cat (.group 1 (.plusG .notQuote)) (.cls .quote))))

/-- The inherits metadata sub-regex applied to an at-property body. -/
def INHERITS_PATTERN : RE :=
  .cat (.strLit ['i', 'n', 'h', 'e', 'r', 'i', 't', 's', ':'])
  (.cat (.starG .space)
  (.group 1 (.alt (.strLit ['t', 'r', 'u', 'e']) (.strLit ['f', 'a', 'l', 's', 'e']))))

/-- The initial-value metadata sub-regex applied to an at-property body. -/
def INITIAL_VALUE_PATTERN : RE :=
  .cat (.strLit ['i', 'n', 'i', 't', 'i', 'a', 'l', '-', 'v', 'a', 'l', 'u', 'e', ':'])
  (.cat (.starG .space) (.group 1 (.plusG .notSemi)))

/-- The import-statement regex of getCurrentComponentImports. -/
def IMPORT_PATTERN : RE :=
  .cat (.strLit ['i', 'm', 'p', 'o', 'r', 't'])
  (.cat (.plusG .space)
  (.cat (.strLit ['\x7b'])
  (.cat (.group 1 (.plusG .notBrace))
  (.cat (.strLit ['\x7d'])
  (.cat (.plusG .space)
  (.cat (.strLit ['f', 'r', 'o', 'm'])
  (.cat (.plusG .space)
  (.cat (.cls .quote)
  (.cat (.strLit ['l', 'u', 't', 'r', 'a'])
  (.cat (.cls .quote) (.optG (.strLit [';']))))))))))))

/-- The description assembled for a formal at-property declaration: the
trimmed comment, a blank line, a fenced css block opener, the three
optional metadata lines, and the fence closer, joined by newlines after
dropping the JS-falsy entries, that is the nulls and the empty strings.
Mirrors lines 102 to 110 of the source. -/
def formatPropertyDescription (comment : String)
    (synField inheritsField initialValueField : Option String) : String :=
  let items : List (Option String) :=
    [some (jsTrim comment),
     some "",
     some "```css",
     synField.map (fun s => "syntax: " ++ s),
     inheritsField.map (fun s => "inherits: " ++ s),
     initialValueField.map (fun s => "initial-value: " ++ s),
     some "```"]
  joinLines ((items.filterMap id).filter (fun s => !(s == "")))

/-- Metadata extraction and description assembly for one match of
PROPERTY_RULE_PATTERN: group 1 is the comment, group 3 the body; the
groups always participate in a match of this pattern, so the defaults
are unreachable. -/
def propertyDescriptionOf (m : RMatch) : String :=
  let body := (m.get 3).getD ""
  formatPropertyDescription ((m.get 1).getD "")
    ((firstMatch SYNTAX_PATTERN body).bind (fun mm => mm.get 1))
    ((firstMatch INHERITS_PATTERN body).bind (fun mm => mm.get 1))
    ((firstMatch INITIAL_VALUE_PATTERN body).bind (fun mm => mm.get 1))

/-- The Variable stored for one formal at-property match. -/
def propertyCSSVariable (filePath name : String) (m : RMatch) : CSSVariable :=
  ⟨name, some (propertyDescriptionOf m), .global, none, filePath⟩

/-- Table update for one formal at-property match, lines 93 to 119 of the
source: always stored, overwriting any existing entry. -/
def applyPropertyMatch (filePath : String) (tbl : VarTable) (m : RMatch) : VarTable :=
  match m.get 2 with
  | none => tbl
  | some name => mapSet tbl name (propertyCSSVariable filePath name m)

/-- The name extracted from a plain-declaration match: the first match of
VAR_NAME_PATTERN inside capture group 2. -/
def plainNameOf (m : RMatch) : Option String :=
  (firstMatch VAR_NAME_PATTERN ((m.get 2).getD "")).map (fun mm => mm.matched)

/-- Table update for one plain-declaration match, lines 125 to 137 of the
source: stored only when the name is not already in the table (the code
comment reads: only add if not already defined as at-property). -/
def applyPlainMatch (filePath : String) (tbl : VarTable) (m : RMatch) : VarTable :=
  match plainNameOf m with
  | none => tbl
  | some name =>
    if mapHas tbl name then tbl
    else mapSet tbl name ⟨name, (m.get 1).map jsTrim, .global, none, filePath⟩

/-- The Variable stored for one documentation-tag match; group 2, the
description, always participates in a match of this pattern. -/
def csspropCSSVariable (filePath componentName name : String) (m : RMatch) : CSSVariable :=
  ⟨name, some (jsTrim ((m.get 2).getD "")), .component, some componentName, filePath⟩

/-- Table update for one documentation-tag match, lines 168 to 178 of the
source: always stored, overwriting any existing entry. -/
def applyCsspropMatch (filePath componentName : String) (tbl : VarTable) (m : RMatch) :
    VarTable :=
  match m.get 1 with
  | none => tbl
  | some name => mapSet tbl name (csspropCSSVariable filePath componentName name m)

/-- Processing of one CSS file in the rebuild, lines 85 to 142 of the
source: on a read error the file is logged and skipped; otherwise the
at-property matches are applied first, then the plain-declaration
matches. -/
def processCssFile (tbl : VarTable) (f : FSFile) : VarTable :=
  match f.content with
  | .error _ => tbl
  | .ok content =>
    let tbl := (matchAllR PROPERTY_RULE_PATTERN content).foldl
      (applyPropertyMatch f.fsPath) tbl
    (matchAllR CSS_VAR_PATTERN content).foldl (applyPlainMatch f.fsPath) tbl

/-- Processing of one Svelte file in the rebuild, lines 161 to 183 of the
source: on a read error the file is logged and skipped; otherwise every
documentation-tag match is stored with the component name derived from the
file base name. -/
def processSvelteFile (tbl : VarTable) (f : FSFile) : VarTable :=
  match f.content with
  | .error _ => tbl
  | .ok content =>
    (matchAllR CSSPROP_DOC_PATTERN content).foldl
      (applyCsspropMatch f.fsPath (basenameNoExt f.fsPath ".svelte")) tbl

/-- The rebuild, updateVariables of the source: the table is cleared (the
previous table is discarded), then the enumerated CSS files are processed
in order, then the enumerated Svelte files. Glob enumeration and the
configuration are host collaborators; their outcome is the two file
lists. -/
def updateVariables (prev : VarTable) (cssFiles svelteFiles : List FSFile) : VarTable :=
  let tbl : VarTable := []
  let tbl := cssFiles.foldl processCssFile tbl
  svelteFiles.foldl processSvelteFile tbl

/-- Trigger one of the source, line 215: the line prefix contains var(
followed by a dash somewhere and ends with a dash. -/
def isVarPattern (lp : String) : Bool :=
  hasSubstr lp "var(-" && jsEndsWith lp "-"

/-- Trigger two of the source, line 216: the line prefix ends with a
double dash. -/
def isDirectPattern (lp : String) : Bool :=
  jsEndsWith lp "--"

/-- Trigger three of the source, line 217: the regex test of a JS
whitespace character followed by a double dash at the end of the line
prefix. -/
def isSvelteAttributePattern (lp : String) : Bool :=
  match lp.toList.reverse with
  | '-' :: '-' :: c :: _ => isSpaceJS c
  | _ => false

/-- Disjunction of the three triggers; the source returns the empty list
when none of them holds, lines 219 to 222. -/
def anyTrigger (lp : String) : Bool :=
  isVarPattern lp || isDirectPattern lp || isSvelteAttributePattern lp

/-- The eligibility filter of the source, lines 226 to 231: global
variables pass, component variables pass when their componentName is
JS-truthy (present and non-empty) and a member of the imported set. -/
def isEligible (importedComponents : List String) (v : CSSVariable) : Bool :=
  (match v.source with | .global => true | .component => false) ||
  ((match v.source with | .component => true | .global => false) &&
    (match v.componentName with
     | some c => decide (c ≠ "") && decide (c ∈ importedComponents)
     | none => false))

/-- Eligibility as the specification words it, section 4.2 of the spec:
origin Global, or origin Component with componentName a member of the
ImportSet. Used only to compare the spec with the source filter. -/
def specEligible (importSet : List String) (v : CSSVariable) : Bool :=
  (match v.source with | .global => true | .component => false) ||
  ((match v.source with | .component => true | .global => false) &&
    (match v.componentName with
     | some c => decide (c ∈ importSet)
     | none => false))

/-- A completion candidate: display label, detail line, optional
documentation body and optional insertion text (when the insertion text
is unset the host inserts the label). -/
structure CompletionItem where
  label : String
  detail : String
  documentation : Option String
  insertText : Option String
deriving DecidableEq, Repr

/-- The text the host inserts for a candidate: the insertion text when
set, the label otherwise. -/
def effectiveInsertText (item : CompletionItem) : String :=
  item.insertText.getD item.label

/-- Formatting of one eligible variable into a candidate, lines 232 to
274 of the source. The workspace-relative display path is a host
computation and is modelled as the stored file path. The documentation
body is attached only when the description is JS-truthy; the insertion
text drops the leading double dash and appends a closing parenthesis
under the var() trigger, drops the leading double dash under the
attribute trigger, and is left unset otherwise. -/
def mkCompletionItem (isVar isAttr : Bool) (v : CSSVariable) : CompletionItem :=
  let rel := v.filePath
  let detail := match v.source with
    | .component => "Lutra • " ++ v.componentName.getD "undefined" ++ " • " ++ rel
    | .global => "Lutra • " ++ rel
  let docu := match v.description with
    | some d => if d == "" then none
        else some (joinLines [d, "", "```", "Source: " ++ rel, "```"])
    | none => none
  let ins : Option String :=
    if isVar then some (v.name.drop 2 ++ ")")
    else if isAttr then some (v.name.drop 2)
    else none
  ⟨v.name, detail, docu, ins⟩

/-- provideCompletionItems of the source, lines 204 to 279. The line
prefix (text of the cursor line up to the cursor column) and the imported
component set (computed from the document text per request) are the two
host-derived inputs. -/
def provideCompletionItems (vars : VarTable) (lp : String)
    (importedComponents : List String) : List CompletionItem :=
  let isVar := isVarPattern lp
  let isDirect := isDirectPattern lp
  let isAttr := isSvelteAttributePattern lp
  if !isVar && !isDirect && !isAttr then []
  else
    ((mapValues vars).filter (isEligible importedComponents)).map
      (mkCompletionItem isVar isAttr)

/-- getCurrentComponentImports of the source, lines 189 to 202: every
lutra import statement contributes its comma-separated, trimmed
identifiers; the JS Set is modelled as a deduplicating append. -/
def getCurrentComponentImports (content : String) : List String :=
  (matchAllR IMPORT_PATTERN content).foldl
    (fun acc m =>
      match m.get 1 with
      | none => acc
      | some grp =>
        ((grp.splitOn ",").map jsTrim).foldl
          (fun acc2 imp => if acc2.contains imp then acc2 else acc2 ++ [imp]) acc)
    []

/-- The names of the formal at-property matches of a text. -/
def propertyNames (content : String) : List String :=
  (matchAllR PROPERTY_RULE_PATTERN content).filterMap (fun m => m.get 2)

/-- The last formal at-property match of a text declaring a given name. -/
def lastPropertyMatch (content name : String) : Option RMatch :=
  ((matchAllR PROPERTY_RULE_PATTERN content).filter
    (fun m => m.get 2 == some name)).getLast?

/-- The names of the plain-declaration matches of a text. -/
def plainDeclNames (content : String) : List String :=
  (matchAllR CSS_VAR_PATTERN content).filterMap plainNameOf

/-- The names of the documentation-tag matches of a text. -/
def csspropNames (content : String) : List String :=
  (matchAllR CSSPROP_DOC_PATTERN content).filterMap (fun m => m.get 1)

/-- The last documentation-tag match of a text declaring a given name. -/
def lastCsspropMatch (content name : String) : Option RMatch :=
  ((matchAllR CSSPROP_DOC_PATTERN content).filter
    (fun m => m.get 1 == some name)).getLast?

/-- The formal at-property names a file contributes: none on read error. -/
def filePropertyNames (f : FSFile) : List String :=
  match f.content with
  | .error _ => []
  | .ok c => propertyNames c

/-- The documentation-tag names a file contributes: none on read error. -/
def fileCsspropNames (f : FSFile) : List String :=
  match f.content with
  | .error _ => []
  | .ok c => csspropNames c

/-- A stylesheet text declaring the variable double-dash-x both by a
formal at-property rule and by a plain declaration. -/
def c1Content : String := "/**Doc*/@property --x \x7b syntax: \"a\"; \x7d --x: red;"

/-- The formal at-property match contained in c1Content. -/
def c1Match : RMatch :=
  ⟨"/**Doc*/@property --x \x7b syntax: \"a\"; \x7d",
   [(1, "Doc"), (2, "--x"), (3, " syntax: \"a\"; ")]⟩

/-- A component text carrying one documentation tag. -/
def c5Content : String := "@cssprop --foo - bar baz"

/-- The documentation-tag match contained in c5Content. -/
def c5Match : RMatch :=
  ⟨"@cssprop --foo - bar baz", [(1, "--foo"), (2, "bar baz")]⟩

/-- The plain-declaration match contained in the text double-dash-x
colon 2 semicolon. -/
def c6PlainMatch : RMatch := ⟨"--x: 2;", [(2, "--x: 2;")]⟩

/-- A stylesheet text with a formal at-property rule whose body carries
none of the three metadata fields. -/
def c7Content : String := "/**Doc*/@property --x \x7b color: red; \x7d"

/-- The formal at-property match contained in c7Content. -/
def c7Match : RMatch :=
  ⟨"/**Doc*/@property --x \x7b color: red; \x7d",
   [(1, "Doc"), (2, "--x"), (3, " color: red; ")]⟩

/-- A sample global variable. -/
def demoGlobalVar : CSSVariable := ⟨"--x", none, .global, none, "f.css"⟩

/-- A one-entry table holding the sample global variable. -/
def demoTable : VarTable := [("--x", demoGlobalVar)]

/-- A sample global variable named double-dash-foo-bar. -/
def fooBarVar : CSSVariable := ⟨"--foo-bar", none, .global, none, "t.css"⟩

/-- A one-entry table holding the foo-bar variable. -/
def fooBarTable : VarTable := [("--foo-bar", fooBarVar)]

/-- A component variable whose componentName is the empty string, which
is JS-falsy. -/
def emptyNameComponentVar : CSSVariable := ⟨"--c", none, .component, some "", "f.svelte"⟩

/-- Looking up the key just set returns the value just set. -/
theorem mapGet_mapSet_self (t : VarTable) (k : String) (v : CSSVariable) :
    mapGet (mapSet t k v) k = some v := by
  induction t with
  | nil => simp [mapSet, mapGet]
  | cons p rest ih =>
    obtain ⟨k', v'⟩ := p
    cases hk : (k' == k) <;> simp [mapSet, mapGet, hk, ih]

/-- Setting one key leaves the lookup of any other key unchanged. -/
theorem mapGet_mapSet_ne (t : VarTable) (k k' : String) (v : CSSVariable)
    (h : ¬ k = k') : mapGet (mapSet t k v) k' = mapGet t k' := by
  induction t with
  | nil => simp [mapSet, mapGet, h]
  | cons p rest ih =>
    obtain ⟨k'', v''⟩ := p
    cases hk : (k'' == k) <;> simp_all [mapSet, mapGet, hk, ih]

/-- Key presence after a set: the key just set, or a previously present
key. -/
theorem mapHas_mapSet (t : VarTable) (k k' : String) (v : CSSVariable) :
    mapHas (mapSet t k v) k' = ((k == k') || mapHas t k') := by
  induction t with
  | nil => simp [mapSet, mapHas]
  | cons p rest ih =>
    obtain ⟨k'', v''⟩ := p
    cases hk : (k'' == k)
    · simp [mapSet, mapHas, hk, ih, Bool.or_left_comm]
    · have hkk : k'' = k := eq_of_beq hk
      subst hkk
      simp [mapSet, mapHas, Bool.or_self, ← Bool.or_assoc]

/-- Presence agrees with lookup success. -/
theorem mapHas_eq_isSome (t : VarTable) (k : String) :
    mapHas t k = (mapGet t k).isSome := by
  induction t with
  | nil => simp [mapHas, mapGet]
  | cons p rest ih =>
    obtain ⟨k', v'⟩ := p
    cases hk : (k' == k) <;> simp [mapHas, mapGet, hk, ih]

/-- After folding the formal at-property matches of a file into the
table, a name whose last declaring match is m maps to the Variable built
from m. -/
theorem foldl_applyProperty_getLast (path name : String) (l : List RMatch) :
    ∀ (tbl : VarTable) (m : RMatch),
      (l.filter (fun mm => mm.get 2 == some name)).getLast? = some m →
      mapGet (l.foldl (applyPropertyMatch path) tbl) name =
        some (propertyCSSVariable path name m) := by
  induction l using List.reverseRecOn with
  | nil => intro tbl m h; simp at h
  | append_singleton l a ih =>
    intro tbl m h
    rw [List.filter_append] at h
    rw [List.foldl_append]
    cases hg : a.get 2 with
    | none =>
      have hf : (List.filter (fun mm => mm.get 2 == some name) [a]) = [] := by
        simp [List.filter, hg]
      rw [hf, List.append_nil] at h
      simpa [applyPropertyMatch, hg] using ih tbl m h
    | some n =>
      by_cases hn : n = name
      · subst hn
        have hf : (List.filter (fun mm => mm.get 2 == some n) [a]) = [a] := by
          simp [List.filter, hg]
        rw [hf, List.getLast?_concat] at h
        have ham : a = m := by injection h
        subst ham
        simp [applyPropertyMatch, hg, mapGet_mapSet_self]
      · have hb : (n == name) = false := by simp [hn]
        have hf : (List.filter (fun mm => mm.get 2 == some name) [a]) = [] := by
          simp [List.filter, hg, hb]
        rw [hf, List.append_nil] at h
        have := ih tbl m h
        simpa [applyPropertyMatch, hg, mapGet_mapSet_ne _ _ _ _ hn] using this

/-- Folding formal at-property matches none of which declares a name
leaves that name's lookup and presence unchanged. -/
theorem foldl_applyProperty_preserves (path name : String) (l : List RMatch) :
    ∀ tbl : VarTable, (∀ mm ∈ l, ¬ mm.get 2 = some name) →
      mapGet (l.foldl (applyPropertyMatch path) tbl) name = mapGet tbl name ∧
      mapHas (l.foldl (applyPropertyMatch path) tbl) name = mapHas tbl name := by
  induction l with
  | nil => intro tbl _; exact ⟨rfl, rfl⟩
  | cons a l ih =>
    intro tbl hall
    have hstep : mapGet (applyPropertyMatch path tbl a) name = mapGet tbl name ∧
        mapHas (applyPropertyMatch path tbl a) name = mapHas tbl name := by
      cases hg : a.get 2 with
      | none => simp [applyPropertyMatch, hg]
      | some n =>
        have hn : ¬ n = name := by
          intro hcontra
          exact hall a (List.mem_cons_self a l) (by rw [hg, hcontra])
        have hb : (n == name) = false := by simp [hn]
        constructor
        · simp [applyPropertyMatch, hg, mapGet_mapSet_ne _ _ _ _ hn]
        · simp [applyPropertyMatch, hg, mapHas_mapSet, hb]
    have htail := ih (applyPropertyMatch path tbl a)
      (fun mm hm => hall mm (List.mem_cons_of_mem a hm))
    rw [List.foldl_cons]
    exact ⟨htail.1.trans hstep.1, htail.2.trans hstep.2⟩

/-- Folding plain-declaration matches never changes a name that is
already present: a plain declaration is stored only for an absent name. -/
theorem foldl_applyPlain_preserves (path name : String) (l : List RMatch) :
    ∀ tbl : VarTable, mapHas tbl name = true →
      mapGet (l.foldl (applyPlainMatch path) tbl) name = mapGet tbl name ∧
      mapHas (l.foldl (applyPlainMatch path) tbl) name = true := by
  induction l with
  | nil => intro tbl hhas; exact ⟨rfl, hhas⟩
  | cons a l ih =>
    intro tbl hhas
    have hstep : mapGet (applyPlainMatch path tbl a) name = mapGet tbl name ∧
        mapHas (applyPlainMatch path tbl a) name = true := by
      cases hp : plainNameOf a with
      | none => simp [applyPlainMatch, hp, hhas]
      | some n =>
        cases hn : mapHas tbl n with
        | true => simp [applyPlainMatch, hp, hn, hhas]
        | false =>
          have hne : ¬ n = name := by
            intro hcontra; rw [hcontra, hhas] at hn; cases hn
          constructor
          · simp [applyPlainMatch, hp, hn, mapGet_mapSet_ne _ _ _ _ hne]
          · simp [applyPlainMatch, hp, hn, mapHas_mapSet, hhas]
    have htail := ih (applyPlainMatch path tbl a) hstep.2
    rw [List.foldl_cons]
    exact ⟨htail.1.trans hstep.1, htail.2⟩

/-- After folding the documentation-tag matches of a file into the table,
a name whose last declaring match is m maps to the Variable built from
m. -/
theorem foldl_applyCssprop_getLast (path comp name : String) (l : List RMatch) :
    ∀ (tbl : VarTable) (m : RMatch),
      (l.filter (fun mm => mm.get 1 == some name)).getLast? = some m →
      mapGet (l.foldl (applyCsspropMatch path comp) tbl) name =
        some (csspropCSSVariable path comp name m) := by
  induction l using List.reverseRecOn with
  | nil => intro tbl m h; simp at h
  | append_singleton l a ih =>
    intro tbl m h
    rw [List.filter_append] at h
    rw [List.foldl_append]
    cases hg : a.get 1 with
    | none =>
      have hf : (List.filter (fun mm => mm.get 1 == some name) [a]) = [] := by
        simp [List.filter, hg]
      rw [hf, List.append_nil] at h
      simpa [applyCsspropMatch, hg] using ih tbl m h
    | some n =>
      by_cases hn : n = name
      · subst hn
        have hf : (List.filter (fun mm => mm.get 1 == some n) [a]) = [a] := by
          simp [List.filter, hg]
        rw [hf, List.getLast?_concat] at h
        have ham : a = m := by injection h
        subst ham
        simp [applyCsspropMatch, hg, mapGet_mapSet_self]
      · have hb : (n == name) = false := by simp [hn]
        have hf : (List.filter (fun mm => mm.get 1 == some name) [a]) = [] := by
          simp [List.filter, hg, hb]
        rw [hf, List.append_nil] at h
        have := ih tbl m h
        simpa [applyCsspropMatch, hg, mapGet_mapSet_ne _ _ _ _ hn] using this

/-- Folding documentation-tag matches none of which declares a name
leaves that name's lookup and presence unchanged. -/
theorem foldl_applyCssprop_preserves (path comp name : String) (l : List RMatch) :
    ∀ tbl : VarTable, (∀ mm ∈ l, ¬ mm.get 1 = some name) →
      mapGet (l.foldl (applyCsspropMatch path comp) tbl) name = mapGet tbl name ∧
      mapHas (l.foldl (applyCsspropMatch path comp) tbl) name = mapHas tbl name := by
  induction l with
  | nil => intro tbl _; exact ⟨rfl, rfl⟩
  | cons a l ih =>
    intro tbl hall
    have hstep : mapGet (applyCsspropMatch path comp tbl a) name = mapGet tbl name ∧
        mapHas (applyCsspropMatch path comp tbl a) name = mapHas tbl name := by
      cases hg : a.get 1 with
      | none => simp [applyCsspropMatch, hg]
      | some n =>
        have hn : ¬ n = name := by
          intro hcontra
          exact hall a (List.mem_cons_self a l) (by rw [hg, hcontra])
        have hb : (n == name) = false := by simp [hn]
        constructor
        · simp [applyCsspropMatch, hg, mapGet_mapSet_ne _ _ _ _ hn]
        · simp [applyCsspropMatch, hg, mapHas_mapSet, hb]
    have htail := ih (applyCsspropMatch path comp tbl a)
      (fun mm hm => hall mm (List.mem_cons_of_mem a hm))
    rw [List.foldl_cons]
    exact ⟨htail.1.trans hstep.1, htail.2.trans hstep.2⟩

/-- Processing a CSS file whose last formal at-property declaration of a
name is m leaves that name mapped to the Variable built from m: the
formal declarations are applied first and the plain declarations cannot
displace a present name. -/
theorem processCssFile_lastProperty (tbl : VarTable) (path content name : String)
    (m : RMatch) (h : lastPropertyMatch content name = some m) :
    mapGet (processCssFile tbl ⟨path, .ok content⟩) name =
      some (propertyCSSVariable path name m) := by
  have h1 := foldl_applyProperty_getLast path name
    (matchAllR PROPERTY_RULE_PATTERN content) tbl m h
  have hhas : mapHas ((matchAllR PROPERTY_RULE_PATTERN content).foldl
      (applyPropertyMatch path) tbl) name = true := by
    rw [mapHas_eq_isSome, h1]; rfl
  have h2 := foldl_applyPlain_preserves path name
    (matchAllR CSS_VAR_PATTERN content)
    ((matchAllR PROPERTY_RULE_PATTERN content).foldl (applyPropertyMatch path) tbl) hhas
  show mapGet ((matchAllR CSS_VAR_PATTERN content).foldl (applyPlainMatch path) _) name = _
  rw [h2.1, h1]

/-- Processing a CSS file that has no formal at-property declaration of a
present name leaves that name's entry unchanged. -/
theorem processCssFile_preserves (tbl : VarTable) (f : FSFile) (name : String)
    (hhas : mapHas tbl name = true)
    (hnp : ¬ name ∈ filePropertyNames f) :
    mapGet (processCssFile tbl f) name = mapGet tbl name ∧
    mapHas (processCssFile tbl f) name = true := by
  obtain ⟨path, content⟩ := f
  cases content with
  | error e => exact ⟨rfl, hhas⟩
  | ok c =>
    have hall : ∀ mm ∈ matchAllR PROPERTY_RULE_PATTERN c, ¬ mm.get 2 = some name := by
      intro mm hm hcontra
      exact hnp (by
        simp only [filePropertyNames, propertyNames]
        exact List.mem_filterMap.mpr ⟨mm, hm, hcontra⟩)
    have h1 := foldl_applyProperty_preserves path name
      (matchAllR PROPERTY_RULE_PATTERN c) tbl hall
    have hhas1 : mapHas ((matchAllR PROPERTY_RULE_PATTERN c).foldl
        (applyPropertyMatch path) tbl) name = true := by rw [h1.2]; exact hhas
    have h2 := foldl_applyPlain_preserves path name (matchAllR CSS_VAR_PATTERN c)
      ((matchAllR PROPERTY_RULE_PATTERN c).foldl (applyPropertyMatch path) tbl) hhas1
    exact ⟨h2.1.trans h1.1, h2.2⟩

/-- Processing a Svelte file whose last documentation tag for a name is m
leaves that name mapped to the Variable built from m and from the file
base name. -/
theorem processSvelteFile_lastCssprop (tbl : VarTable) (path content name : String)
    (m : RMatch) (h : lastCsspropMatch content name = some m) :
    mapGet (processSvelteFile tbl ⟨path, .ok content⟩) name =
      some (csspropCSSVariable path (basenameNoExt path ".svelte") name m) :=
  foldl_applyCssprop_getLast path (basenameNoExt path ".svelte") name
    (matchAllR CSSPROP_DOC_PATTERN content) tbl m h

/-- Processing a Svelte file with no documentation tag for a name leaves
that name's lookup and presence unchanged. -/
theorem processSvelteFile_preserves (tbl : VarTable) (f : FSFile) (name : String)
    (hnc : ¬ name ∈ fileCsspropNames f) :
    mapGet (processSvelteFile tbl f) name = mapGet tbl name ∧
    mapHas (processSvelteFile tbl f) name = mapHas tbl name := by
  obtain ⟨path, content⟩ := f
  cases content with
  | error e => exact ⟨rfl, rfl⟩
  | ok c =>
    have hall : ∀ mm ∈ matchAllR CSSPROP_DOC_PATTERN c, ¬ mm.get 1 = some name := by
      intro mm hm hcontra
      exact hnc (by
        simp only [fileCsspropNames, csspropNames]
        exact List.mem_filterMap.mpr ⟨mm, hm, hcontra⟩)
    exact foldl_applyCssprop_preserves path (basenameNoExt path ".svelte") name
      (matchAllR CSSPROP_DOC_PATTERN c) tbl hall

/-- Folding CSS files none of which formally redeclares a present name
preserves that name's entry. -/
theorem foldl_processCss_preserves (name : String) (files : List FSFile) :
    ∀ tbl : VarTable, mapHas tbl name = true →
      (∀ g ∈ files, ¬ name ∈ filePropertyNames g) →
      mapGet (files.foldl processCssFile tbl) name = mapGet tbl name ∧
      mapHas (files.foldl processCssFile tbl) name = true := by
  induction files with
  | nil => intro tbl hhas _; exact ⟨rfl, hhas⟩
  | cons f fs ih =>
    intro tbl hhas hall
    have hstep := processCssFile_preserves tbl f name hhas
      (hall f (List.mem_cons_self f fs))
    have htail := ih (processCssFile tbl f) hstep.2
      (fun g hg => hall g (List.mem_cons_of_mem f hg))
    rw [List.foldl_cons]
    exact ⟨htail.1.trans hstep.1, htail.2⟩

/-- Folding Svelte files none of which redeclares a name via a
documentation tag preserves that name's entry. -/
theorem foldl_processSvelte_preserves (name : String) (files : List FSFile) :
    ∀ tbl : VarTable, (∀ g ∈ files, ¬ name ∈ fileCsspropNames g) →
      mapGet (files.foldl processSvelteFile tbl) name = mapGet tbl name := by
  induction files with
  | nil => intro tbl _; rfl
  | cons f fs ih =>
    intro tbl hall
    have hstep := processSvelteFile_preserves tbl f name
      (hall f (List.mem_cons_self f fs))
    have htail := ih (processSvelteFile tbl f)
      (fun g hg => hall g (List.mem_cons_of_mem f hg))
    rw [List.foldl_cons]
    exact htail.trans hstep.1

/-- A rebuild maps a name to the Variable of its last formal at-property
declaration in a stylesheet f, provided no later stylesheet formally
redeclares the name and no component documentation tag declares it. -/
theorem rebuild_stores_last_property
    (prev : VarTable) (pre post svelteFiles : List FSFile) (f : FSFile)
    (content name : String) (m : RMatch)
    (hok : f.content = .ok content)
    (hform : lastPropertyMatch content name = some m)
    (hpost : ∀ g ∈ post, ¬ name ∈ filePropertyNames g)
    (hsv : ∀ g ∈ svelteFiles, ¬ name ∈ fileCsspropNames g) :
    mapGet (updateVariables prev (pre ++ f :: post) svelteFiles) name =
      some (propertyCSSVariable f.fsPath name m) := by
  obtain ⟨path, fc⟩ := f
  simp only at hok
  subst hok
  simp only [updateVariables, List.foldl_append, List.foldl_cons]
  have h1 := processCssFile_lastProperty (pre.foldl processCssFile []) path content name m
    hform
  have hhas1 : mapHas (processCssFile (pre.foldl processCssFile [])
      ⟨path, .ok content⟩) name = true := by
    rw [mapHas_eq_isSome, h1]; rfl
  have h2 := foldl_processCss_preserves name post _ hhas1 hpost
  have h3 := foldl_processSvelte_preserves name svelteFiles
    (List.foldl processCssFile
      (processCssFile (List.foldl processCssFile [] pre) ⟨path, .ok content⟩) post) hsv
  rw [h3, h2.1, h1]

/-- C1: during a rebuild, for every stylesheet file whose text contains
both a formal at-property declaration of a name (last such match m) and a
plain declaration of the same name, and whose name is not formally
redeclared by a later stylesheet nor by any component documentation tag,
the resulting table maps that name to the Variable built from the formal
declaration: origin Global and the description assembled from the formal
comment and metadata. The plain declaration does not overwrite it. -/
theorem c1_formal_declaration_takes_precedence
    (prev : VarTable) (pre post svelteFiles : List FSFile) (f : FSFile)
    (content name : String) (m : RMatch)
    (hok : f.content = .ok content)
    (hform : lastPropertyMatch content name = some m)
    (hplain : name ∈ plainDeclNames content)
    (hpost : ∀ g ∈ post, ¬ name ∈ filePropertyNames g)
    (hsv : ∀ g ∈ svelteFiles, ¬ name ∈ fileCsspropNames g) :
    mapGet (updateVariables prev (pre ++ f :: post) svelteFiles) name =
      some (propertyCSSVariable f.fsPath name m) ∧
    (propertyCSSVariable f.fsPath name m).source = .global :=
  ⟨rebuild_stores_last_property prev pre post svelteFiles f content name m
      hok hform hpost hsv, rfl⟩

/-- C1 witness: a stylesheet declaring double-dash-x both formally and
plainly; the rebuilt one-file table stores the formal Variable with
origin Global and the description built from the comment and the syntax
field. -/
theorem c1_formal_declaration_takes_precedence_witness :
    lastPropertyMatch c1Content "--x" = some c1Match ∧
    "--x" ∈ plainDeclNames c1Content ∧
    (mapGet (updateVariables [] [⟨"t.css", .ok c1Content⟩] []) "--x" =
        some (propertyCSSVariable "t.css" "--x" c1Match) ∧
      (propertyCSSVariable "t.css" "--x" c1Match).source = .global) :=
  ⟨by decide, by decide,
   c1_formal_declaration_takes_precedence [] [] [] [] ⟨"t.css", .ok c1Content⟩
     c1Content "--x" c1Match rfl (by decide) (by decide) (by simp) (by simp)⟩

/-- C8: the rebuild is idempotent; it clears the table first, so its
result does not depend on the previous table, and re-running it on the
same file lists reproduces the same table, key for key and field for
field. -/
theorem c8_rebuild_idempotent (prev : VarTable) (cssFiles svelteFiles : List FSFile) :
    updateVariables (updateVariables prev cssFiles svelteFiles) cssFiles svelteFiles =
      updateVariables prev cssFiles svelteFiles := rfl

/-- C9: a file whose read fails contributes nothing and is skipped; the
rebuild runs to completion and produces exactly the table it would
produce were the failing file absent, whether the failure is in the
stylesheet list or in the component list. -/
theorem c9_failed_read_is_skipped (prev : VarTable) (path err : String) :
    (∀ (pre post svelteFiles : List FSFile),
      updateVariables prev (pre ++ ⟨path, .error err⟩ :: post) svelteFiles =
        updateVariables prev (pre ++ post) svelteFiles) ∧
    (∀ (cssFiles pre post : List FSFile),
      updateVariables prev cssFiles (pre ++ ⟨path, .error err⟩ :: post) =
        updateVariables prev cssFiles (pre ++ post)) := by
  constructor
  · intro pre post svelteFiles
    simp only [updateVariables, List.foldl_append, List.foldl_cons]
    rfl
  · intro cssFiles pre post
    simp only [updateVariables, List.foldl_append, List.foldl_cons]
    rfl

/-- C5: for every component file containing a documentation tag (last
such for the name being match m), provided no later component file
redeclares the name, the rebuilt index maps the name to a Variable with
origin Component, the trimmed tag text as description, and the file base
name (extension stripped) as componentName. -/
theorem c5_cssprop_tag_is_indexed
    (prev : VarTable) (cssFiles pre post : List FSFile) (f : FSFile)
    (content name : String) (m : RMatch)
    (hok : f.content = .ok content)
    (htag : lastCsspropMatch content name = some m)
    (hpost : ∀ g ∈ post, ¬ name ∈ fileCsspropNames g) :
    mapGet (updateVariables prev cssFiles (pre ++ f :: post)) name =
      some ⟨name, some (jsTrim ((m.get 2).getD "")), .component,
            some (basenameNoExt f.fsPath ".svelte"), f.fsPath⟩ := by
  obtain ⟨path, fc⟩ := f
  simp only at hok
  subst hok
  simp only [updateVariables, List.foldl_append, List.foldl_cons]
  have h1 := processSvelteFile_lastCssprop
    (pre.foldl processSvelteFile (cssFiles.foldl processCssFile [])) path content name m htag
  have h2 := foldl_processSvelte_preserves name post
    (processSvelteFile (pre.foldl processSvelteFile (cssFiles.foldl processCssFile []))
      ⟨path, .ok content⟩) hpost
  rw [h2, h1]
  rfl

/-- C5 witness: the tag at-cssprop double-dash-foo dash bar baz inside
src/Button.svelte yields the Variable named double-dash-foo with
description bar baz, origin Component and componentName Button. -/
theorem c5_cssprop_tag_is_indexed_witness :
    lastCsspropMatch c5Content "--foo" = some c5Match ∧
    mapGet (updateVariables [] [] [⟨"src/Button.svelte", .ok c5Content⟩]) "--foo" =
      some ⟨"--foo", some "bar baz", .component, some "Button", "src/Button.svelte"⟩ :=
  ⟨by decide,
   c5_cssprop_tag_is_indexed [] [] [] [] ⟨"src/Button.svelte", .ok c5Content⟩
     c5Content "--foo" c5Match rfl (by decide) (by simp)⟩

/-- C6 counterexample: two stylesheets each hold a plain declaration of
double-dash-x; the rebuilt table keeps the metadata of the first file in
the traversal order, a.css, not of the last writer b.css, so the claimed
unconditional last-writer-wins rule fails. -/
theorem c6_counterexample :
    mapGet (updateVariables []
        [⟨"a.css", .ok "--x: 1;"⟩, ⟨"b.css", .ok "--x: 2;"⟩] []) "--x" =
      some ⟨"--x", none, .global, none, "a.css"⟩ ∧
    ¬ (mapGet (updateVariables []
        [⟨"a.css", .ok "--x: 1;"⟩, ⟨"b.css", .ok "--x: 2;"⟩] []) "--x" =
      some ⟨"--x", none, .global, none, "b.css"⟩) :=
  ⟨by decide, by decide⟩

/-- C6 amended: within one rebuild, collisions resolve by declaration
kind: a formal at-property declaration and a documentation tag always
overwrite the current entry for their name (last writer wins), while a
plain declaration never overwrites: it is stored only when its name is
absent, so among plain declarations the first writer wins. -/
theorem c6_collision_rules :
    (∀ (tbl : VarTable) (path name : String) (m : RMatch),
      m.get 2 = some name →
      mapGet (applyPropertyMatch path tbl m) name =
        some (propertyCSSVariable path name m)) ∧
    (∀ (tbl : VarTable) (path comp name : String) (m : RMatch),
      m.get 1 = some name →
      mapGet (applyCsspropMatch path comp tbl m) name =
        some (csspropCSSVariable path comp name m)) ∧
    (∀ (tbl : VarTable) (path name : String) (m : RMatch),
      plainNameOf m = some name → mapHas tbl name = true →
      applyPlainMatch path tbl m = tbl) := by
  refine ⟨?_, ?_, ?_⟩
  · intro tbl path name m hg
    simp [applyPropertyMatch, hg, mapGet_mapSet_self]
  · intro tbl path comp name m hg
    simp [applyCsspropMatch, hg, mapGet_mapSet_self]
  · intro tbl path name m hp hhas
    simp [applyPlainMatch, hp, hhas]

/-- C6 amended witness: a formal match and a documentation-tag match
overwrite an existing entry for their name, while a plain match for a
present name leaves the table untouched. -/
theorem c6_collision_rules_witness :
    mapGet (applyPropertyMatch "t.css" demoTable c1Match) "--x" =
      some (propertyCSSVariable "t.css" "--x" c1Match) ∧
    mapGet (applyCsspropMatch "b.svelte" "b" [] c5Match) "--foo" =
      some (csspropCSSVariable "b.svelte" "b" "--foo" c5Match) ∧
    applyPlainMatch "b.css" demoTable c6PlainMatch = demoTable :=
  ⟨c6_collision_rules.1 demoTable "t.css" "--x" c1Match (by decide),
   c6_collision_rules.2.1 [] "b.svelte" "b" "--foo" c5Match (by decide),
   c6_collision_rules.2.2 demoTable "b.css" "--x" c6PlainMatch (by decide) (by decide)⟩

/-- Concatenation of strings is associative. -/
theorem stringAppend_assoc (a b c : String) : a ++ b ++ c = a ++ (b ++ c) := by
  apply String.ext
  simp

/-- The description built with all three metadata fields absent: the
trimmed comment (dropped when empty, being JS-falsy) followed by an empty
fenced css block; the fence literals survive the truthiness filter. -/
theorem formatPropertyDescription_no_fields (c : String) :
    formatPropertyDescription c none none none =
      (if jsTrim c == "" then "```css\n```" else jsTrim c ++ "\n```css\n```") := by
  unfold formatPropertyDescription
  cases h : jsTrim c == "" <;>
    simp [List.filterMap, List.filter, h, joinLines]
  rw [stringAppend_assoc]
  rfl

/-- C7 counterexample: a formal at-property rule whose body has none of
the three metadata fields still gets an empty fenced css block appended
after the comment text, so the description does not consist only of the
comment text. -/
theorem c7_counterexample :
    mapGet (updateVariables [] [⟨"t.css", .ok c7Content⟩] []) "--x" =
      some ⟨"--x", some "Doc\n```css\n```", .global, none, "t.css"⟩ ∧
    ¬ ("Doc\n```css\n```" = "Doc") :=
  ⟨by decide, by decide⟩

/-- C7 amended: a formal at-property declaration whose body carries none
of the three metadata fields still produces a Variable; its description
is the trimmed comment text followed by an empty fenced css block (the
comment alone is dropped too when it trims to the empty string). -/
theorem c7_missing_metadata_fields
    (prev : VarTable) (pre post svelteFiles : List FSFile) (f : FSFile)
    (content name : String) (m : RMatch)
    (hok : f.content = .ok content)
    (hform : lastPropertyMatch content name = some m)
    (hsy : firstMatch SYNTAX_PATTERN ((m.get 3).getD "") = none)
    (hin : firstMatch INHERITS_PATTERN ((m.get 3).getD "") = none)
    (hiv : firstMatch INITIAL_VALUE_PATTERN ((m.get 3).getD "") = none)
    (hpost : ∀ g ∈ post, ¬ name ∈ filePropertyNames g)
    (hsv : ∀ g ∈ svelteFiles, ¬ name ∈ fileCsspropNames g) :
    mapGet (updateVariables prev (pre ++ f :: post) svelteFiles) name =
      some ⟨name,
        some (if jsTrim ((m.get 1).getD "") == "" then "```css\n```"
              else jsTrim ((m.get 1).getD "") ++ "\n```css\n```"),
        .global, none, f.fsPath⟩ := by
  rw [rebuild_stores_last_property prev pre post svelteFiles f content name m
    hok hform hpost hsv]
  simp only [propertyCSSVariable, propertyDescriptionOf, hsy, hin, hiv, Option.bind]
  rw [formatPropertyDescription_no_fields]

/-- C7 witness: the rule with body color colon red produces the
description Doc followed by an empty fenced css block. -/
theorem c7_missing_metadata_fields_witness :
    lastPropertyMatch c7Content "--x" = some c7Match ∧
    firstMatch SYNTAX_PATTERN ((c7Match.get 3).getD "") = none ∧
    firstMatch INHERITS_PATTERN ((c7Match.get 3).getD "") = none ∧
    firstMatch INITIAL_VALUE_PATTERN ((c7Match.get 3).getD "") = none ∧
    mapGet (updateVariables [] [⟨"t.css", .ok c7Content⟩] []) "--x" =
      some ⟨"--x",
        some (if jsTrim ((c7Match.get 1).getD "") == "" then "```css\n```"
              else jsTrim ((c7Match.get 1).getD "") ++ "\n```css\n```"),
        .global, none, "t.css"⟩ :=
  ⟨by decide, by decide, by decide, by decide,
   c7_missing_metadata_fields [] [] [] [] ⟨"t.css", .ok c7Content⟩
     c7Content "--x" c7Match rfl (by decide) (by decide) (by decide) (by decide)
     (by simp) (by simp)⟩

/-- C2 counterexample: the prefix color colon var open-paren double-dash
a close-paren space dash yields a non-empty candidate list although it
matches none of the three claimed patterns: it does not end in
var open-paren double-dash, does not end in a bare double dash, and does
not end in whitespace followed by a double dash. The source var() trigger
only requires var open-paren dash somewhere in the prefix plus a trailing
dash. -/
theorem c2_counterexample :
    ¬ (provideCompletionItems demoTable "color: var(--a) -" [] = []) ∧
    jsEndsWith "color: var(--a) -" "var(--" = false ∧
    isDirectPattern "color: var(--a) -" = false ∧
    isSvelteAttributePattern "color: var(--a) -" = false := by
  refine ⟨by decide, by decide, by decide, by decide⟩

/-- C2 amended: completions are returned only when the prefix contains
var open-paren dash somewhere and ends in a dash, or ends in a double
dash, or ends in whitespace followed by a double dash; for any prefix
matching none of these three source triggers (for example margin colon
1px) the result is the empty list rather than an error. -/
theorem c2_no_trigger_no_completions (vars : VarTable) (lp : String)
    (imports : List String) (h : anyTrigger lp = false) :
    provideCompletionItems vars lp imports = [] := by
  have h3 : isVarPattern lp = false ∧ isDirectPattern lp = false ∧
      isSvelteAttributePattern lp = false := by
    simpa [anyTrigger, Bool.or_eq_false_iff, and_assoc] using h
  simp [provideCompletionItems, h3.1, h3.2.1, h3.2.2]

/-- C2 witness: the prefix margin colon 1px matches no trigger and the
provider returns the empty list. -/
theorem c2_no_trigger_no_completions_witness :
    anyTrigger "margin: 1px" = false ∧
    provideCompletionItems demoTable "margin: 1px" [] = [] :=
  ⟨by decide, c2_no_trigger_no_completions demoTable "margin: 1px" [] (by decide)⟩

/-- C3: for an eligible variable named double-dash-foo-bar, under any
trigger the emitted candidate has display label double-dash-foo-bar; its
effective insertion text is foo-bar close-paren when the var() trigger
holds, foo-bar when the attribute trigger holds without the var()
trigger, and the unchanged full name double-dash-foo-bar under the
direct trigger alone. -/
theorem c3_insertion_text_law (vars : VarTable) (lp : String)
    (imports : List String) (v : CSSVariable)
    (hv : v ∈ (mapValues vars).filter (isEligible imports))
    (hname : v.name = "--foo-bar")
    (ht : anyTrigger lp = true) :
    mkCompletionItem (isVarPattern lp) (isSvelteAttributePattern lp) v ∈
      provideCompletionItems vars lp imports ∧
    (mkCompletionItem (isVarPattern lp) (isSvelteAttributePattern lp) v).label =
      "--foo-bar" ∧
    (isVarPattern lp = true →
      effectiveInsertText
        (mkCompletionItem (isVarPattern lp) (isSvelteAttributePattern lp) v) =
        "foo-bar)") ∧
    (isVarPattern lp = false → isSvelteAttributePattern lp = true →
      effectiveInsertText
        (mkCompletionItem (isVarPattern lp) (isSvelteAttributePattern lp) v) =
        "foo-bar") ∧
    (isVarPattern lp = false → isSvelteAttributePattern lp = false →
      isDirectPattern lp = true →
      effectiveInsertText
        (mkCompletionItem (isVarPattern lp) (isSvelteAttributePattern lp) v) =
        "--foo-bar") := by
  refine ⟨?_, ?_, ?_, ?_, ?_⟩
  · have hcond : (!isVarPattern lp && !isDirectPattern lp &&
        !isSvelteAttributePattern lp) = false := by
      unfold anyTrigger at ht
      cases ha : isVarPattern lp <;> cases hb : isDirectPattern lp <;>
        cases hc : isSvelteAttributePattern lp <;> simp_all
    simp only [provideCompletionItems, hcond, Bool.false_eq_true, if_false]
    exact List.mem_map_of_mem _ hv
  · simp [mkCompletionItem, hname]
  · intro hVar
    simp [mkCompletionItem, effectiveInsertText, hVar, hname]
    decide
  · intro hVar hAttr
    simp [mkCompletionItem, effectiveInsertText, hVar, hAttr, hname]
    decide
  · intro hVar hAttr _
    simp [mkCompletionItem, effectiveInsertText, hVar, hAttr, hname]

/-- C3 witness: with the foo-bar variable and the prefix color colon var
open-paren double-dash the var() trigger holds, the candidate is emitted
with label double-dash-foo-bar and insertion text foo-bar close-paren. -/
theorem c3_insertion_text_law_witness :
    fooBarVar ∈ (mapValues fooBarTable).filter (isEligible []) ∧
    anyTrigger "color: var(--" = true ∧
    (mkCompletionItem (isVarPattern "color: var(--")
        (isSvelteAttributePattern "color: var(--") fooBarVar ∈
      provideCompletionItems fooBarTable "color: var(--" [] ∧
    (mkCompletionItem (isVarPattern "color: var(--")
        (isSvelteAttributePattern "color: var(--") fooBarVar).label = "--foo-bar" ∧
    (isVarPattern "color: var(--" = true →
      effectiveInsertText (mkCompletionItem (isVarPattern "color: var(--")
        (isSvelteAttributePattern "color: var(--") fooBarVar) = "foo-bar)") ∧
    (isVarPattern "color: var(--" = false →
      isSvelteAttributePattern "color: var(--" = true →
      effectiveInsertText (mkCompletionItem (isVarPattern "color: var(--")
        (isSvelteAttributePattern "color: var(--") fooBarVar) = "foo-bar") ∧
    (isVarPattern "color: var(--" = false →
      isSvelteAttributePattern "color: var(--" = false →
      isDirectPattern "color: var(--" = true →
      effectiveInsertText (mkCompletionItem (isVarPattern "color: var(--")
        (isSvelteAttributePattern "color: var(--") fooBarVar) = "--foo-bar")) :=
  ⟨by decide, by decide,
   c3_insertion_text_law fooBarTable "color: var(--" [] fooBarVar
     (by decide) rfl (by decide)⟩

/-- C4 counterexample: with ImportSet containing the empty string and a
component variable whose componentName is the empty string, the spec
reading of the filter admits the variable (its componentName is a member
of the set) but the source filter rejects it, because an empty
componentName is JS-falsy; the claimed set equality fails on this
table. -/
theorem c4_counterexample :
    specEligible [""] emptyNameComponentVar = true ∧
    isEligible [""] emptyNameComponentVar = false ∧
    (mapValues [("--c", emptyNameComponentVar)]).filter (isEligible [""]) = [] ∧
    (mapValues [("--c", emptyNameComponentVar)]).filter (specEligible [""]) =
      [emptyNameComponentVar] := by
  refine ⟨by decide, by decide, by decide, by decide⟩

/-- C4 amended: for every table and ImportSet S, the variables passing
the completion filter are exactly the variables with origin Global
together with the variables with origin Component whose componentName is
present, non-empty and a member of S; ineligible variables are omitted
without error. -/
theorem c4_filtering_law (vars : VarTable) (importSet : List String)
    (v : CSSVariable) :
    v ∈ (mapValues vars).filter (isEligible importSet) ↔
      v ∈ mapValues vars ∧
        (v.source = VarSource.global ∨
          (v.source = VarSource.component ∧
            ∃ c, v.componentName = some c ∧ ¬ c = "" ∧ c ∈ importSet)) := by
  rw [List.mem_filter]
  apply and_congr_right
  intro _
  cases hsrc : v.source <;> cases hcn : v.componentName <;>
    simp [isEligible, hsrc, hcn]

/-- C10: whenever the line prefix contains var open-paren dash anywhere
and ends in a dash, the var() branch takes priority over the attribute
and direct branches, and every returned candidate's insertion text is its
label (the variable name) with the leading double dash stripped and a
closing parenthesis appended, even when the trailing dashes are a bare
double dash outside any var call. -/
theorem c10_var_trigger_priority (vars : VarTable) (lp : String)
    (imports : List String) (item : CompletionItem)
    (hsub : hasSubstr lp "var(-" = true)
    (hend : jsEndsWith lp "-" = true)
    (hitem : item ∈ provideCompletionItems vars lp imports) :
    item.insertText = some (item.label.drop 2 ++ ")") := by
  have hvar : isVarPattern lp = true := by simp [isVarPattern, hsub, hend]
  simp only [provideCompletionItems, hvar, Bool.not_true, Bool.false_and,
    Bool.false_eq_true, if_false, List.mem_map] at hitem
  obtain ⟨v, hv, rfl⟩ := hitem
  simp [mkCompletionItem]

/-- C10 witness: the prefix x colon var open-paren double-dash a
close-paren semicolon y colon space double-dash contains var open-paren
dash in an already closed call and ends in a bare attribute-position
double dash; the emitted candidate still gets insertion text x
close-paren. -/
theorem c10_var_trigger_priority_witness :
    hasSubstr "x: var(--a); y: --" "var(-" = true ∧
    jsEndsWith "x: var(--a); y: --" "-" = true ∧
    mkCompletionItem true true demoGlobalVar ∈
      provideCompletionItems demoTable "x: var(--a); y: --" [] ∧
    (mkCompletionItem true true demoGlobalVar).insertText =
      some ((mkCompletionItem true true demoGlobalVar).label.drop 2 ++ ")") :=
  ⟨by decide, by decide, by decide,
   c10_var_trigger_priority demoTable "x: var(--a); y: --" []
     (mkCompletionItem true true demoGlobalVar) (by decide) (by decide) (by decide)⟩

end LutraCss
